import Mathlib

/-!
Verification development for the ghostsnap backup engine.

The development shallowly embeds the core data model and operations of the
repository engine (chunker, pack builder and reader, index, tree and snapshot
serialization, key handling, retry driver) as executable Lean definitions and
proves or refutes the specified properties about them.

Bytes are modelled as natural numbers below 256, byte strings as `List Nat`.
Machine integers are modelled as `Nat` with explicit reduction modulo the
word size at the points where the Rust code performs wrapping casts.

Third-party primitives the engine delegates to are handled as follows:
* ChaCha20-Poly1305 (chacha20poly1305 crate) and Blake3 (blake3 crate) are
  implemented in full below, following RFC 8439 and the BLAKE3 function
  definition; published test vectors for both are proved by `decide`.
* zlib compression (flate2 crate), the bincode encoding of the pack header
  and directory, and the Argon2id KDF (argon2 crate) are opaque to every
  property under consideration, and are modelled as explicit function
  parameters of the operations that invoke them.
* Randomness (AEAD nonces, creation timestamps) is modelled by passing the
  random value as an explicit argument.
-/

set_option maxRecDepth 100000
set_option maxHeartbeats 4000000

namespace Ghostsnap

/-! ## Byte and word utilities -/

/-- Little-endian interpretation of a byte string as a natural number. -/
def leToNat (l : List Nat) : Nat := l.foldr (fun b acc => b % 256 + 256 * acc) 0

/-- Little-endian encoding of `n` into exactly `w` bytes (truncating). -/
def natToLe (w n : Nat) : List Nat := (List.range w).map (fun i => n / 256 ^ i % 256)

theorem natToLe_length (w n : Nat) : (natToLe w n).length = w := by
  simp [natToLe]

/-- Addition modulo 2^32. -/
def add32 (a b : Nat) : Nat := (a + b) % 4294967296

/-- Truncation to 32 bits. -/
def trunc32 (a : Nat) : Nat := a % 4294967296

/-- Right rotation of a 32-bit word. -/
def rotr32 (x n : Nat) : Nat := trunc32 ((x >>> n) ||| (x <<< (32 - n)))

/-- Left rotation of a 32-bit word. -/
def rotl32 (x n : Nat) : Nat := rotr32 x (32 - n)

/-- Bitwise xor (32-bit operands stay 32-bit). -/
def xor32 (a b : Nat) : Nat := Nat.xor a b

/-- Convert a hex string (lowercase, even length) to bytes; development aid for
stating published test vectors. -/
def hexToBytes (s : String) : List Nat :=
  let v : Char → Nat := fun c =>
    if c.toNat ≥ 97 then c.toNat - 87 else c.toNat - 48
  let cs := s.toList
  (List.range (cs.length / 2)).map
    (fun i => 16 * v (cs.getD (2 * i) '0') + v (cs.getD (2 * i + 1) '0'))

/-! ## ChaCha20 (RFC 8439 section 2.3) -/

/-- One ChaCha quarter round on a 16-word state, at indices a b c d. -/
def chachaQR (s : List Nat) (a b c d : Nat) : List Nat :=
  let sa := add32 (s.getD a 0) (s.getD b 0)
  let sd := rotl32 (xor32 (s.getD d 0) sa) 16
  let sc := add32 (s.getD c 0) sd
  let sb := rotl32 (xor32 (s.getD b 0) sc) 12
  let sa' := add32 sa sb
  let sd' := rotl32 (xor32 sd sa') 8
  let sc' := add32 sc sd'
  let sb' := rotl32 (xor32 sb sc') 7
  ((((s.set a sa').set b sb').set c sc').set d sd')

/-- One ChaCha double round (column round then diagonal round). -/
def chachaDoubleRound (s : List Nat) : List Nat :=
  let s := chachaQR s 0 4 8 12
  let s := chachaQR s 1 5 9 13
  let s := chachaQR s 2 6 10 14
  let s := chachaQR s 3 7 11 15
  let s := chachaQR s 0 5 10 15
  let s := chachaQR s 1 6 11 12
  let s := chachaQR s 2 7 8 13
  chachaQR s 3 4 9 14

/-- The initial ChaCha20 state from a 32-byte key, block counter and 12-byte
nonce. -/
def chachaInit (key : List Nat) (counter : Nat) (nonce : List Nat) : List Nat :=
  [1634760805, 857760878, 2036477234, 1797285236]
  ++ (List.range 8).map (fun i => leToNat ((key.drop (4 * i)).take 4))
  ++ [trunc32 counter]
  ++ (List.range 3).map (fun i => leToNat ((nonce.drop (4 * i)).take 4))

/-- The ChaCha20 block function: 64 bytes of keystream. -/
def chachaBlock (key : List Nat) (counter : Nat) (nonce : List Nat) : List Nat :=
  let init := chachaInit key counter nonce
  let s := (List.range 10).foldl (fun st _ => chachaDoubleRound st) init
  ((List.range 16).map (fun i => add32 (s.getD i 0) (init.getD i 0))).flatMap (natToLe 4)

/-- Keystream of `nb` consecutive ChaCha20 blocks starting at `counter0`. -/
def chachaKeystream (key : List Nat) (nonce : List Nat) (counter0 nb : Nat) : List Nat :=
  (List.range nb).flatMap (fun i => chachaBlock key (counter0 + i) nonce)

/-- ChaCha20 encryption/decryption: xor the data with the keystream starting at
block `counter0`. -/
def chachaXor (key : List Nat) (nonce : List Nat) (counter0 : Nat) (data : List Nat) : List Nat :=
  List.zipWith xor32 data (chachaKeystream key nonce counter0 ((data.length + 63) / 64))

/-- RFC 8439 section 2.3.2 test vector for the ChaCha20 block function. -/
theorem chacha20_rfc8439_block_vector :
    chachaBlock (List.range 32) 1 (hexToBytes "000000090000004a00000000") =
      hexToBytes "10f1e7e4d13b5915500fdd1fa32071c4c7d1f4c733c068030422aa9ac3d46c4ed2826446079faa0914c2d705d98b02a2b5129cd1de164eb9cbd083e8a2503c4e" := by
  decide

/-! ## Poly1305 (RFC 8439 section 2.5) -/

/-- The Poly1305 prime 2^130 - 5. -/
def polyP : Nat := 1361129467683753853853498429727072845819

/-- Poly1305 MAC of a message under a 32-byte one-time key. -/
def poly1305 (key msg : List Nat) : List Nat :=
  let r := leToNat (key.take 16) &&& 21267647620597763993911028882763415551
  let s := leToNat ((key.drop 16).take 16)
  let nb := (msg.length + 15) / 16
  let acc := (List.range nb).foldl
    (fun acc i =>
      let blk := (msg.drop (16 * i)).take 16
      let n := leToNat blk + 256 ^ blk.length
      (acc + n) * r % polyP)
    0
  natToLe 16 ((acc + s) % 340282366920938463463374607431768211456)

/-- RFC 8439 section 2.5.2 Poly1305 test vector. -/
theorem poly1305_rfc8439_vector :
    poly1305
      (hexToBytes "85d6be7857556d337f4452fe42d506a80103808afb0db2fd4abff6af4149f51b")
      ("Cryptographic Forum Research Group".toList.map Char.toNat) =
      hexToBytes "a8061dc1305136c6c22b8baf0c0127a9" := by
  decide

/-! ## ChaCha20-Poly1305 AEAD (RFC 8439 section 2.8)

The chacha20poly1305 crate used by the engine implements exactly this AEAD;
the engine always calls it with an empty additional-authenticated-data field.
-/

/-- Zero padding to the next 16-byte boundary. -/
def pad16 (l : List Nat) : List Nat := List.replicate ((16 - l.length % 16) % 16) 0

/-- The Poly1305 input authenticated by the AEAD (empty AAD case). -/
def aeadMacData (ct : List Nat) : List Nat :=
  ct ++ pad16 ct ++ natToLe 8 0 ++ natToLe 8 ct.length

/-- AEAD seal: ciphertext followed by the 16-byte tag. -/
def aeadEncrypt (key nonce pt : List Nat) : List Nat :=
  let polykey := (chachaBlock key 0 nonce).take 32
  let ct := chachaXor key nonce 1 pt
  ct ++ poly1305 polykey (aeadMacData ct)

/-- AEAD open: fails unless the tag verifies. -/
def aeadDecrypt (key nonce data : List Nat) : Except String (List Nat) :=
  if data.length < 16 then .error "aead::Error"
  else
    let ct := data.take (data.length - 16)
    let tag := data.drop (data.length - 16)
    let polykey := (chachaBlock key 0 nonce).take 32
    if poly1305 polykey (aeadMacData ct) = tag then .ok (chachaXor key nonce 1 ct)
    else .error "aead::Error"

/-- RFC 8439 section 2.8.2 AEAD test vector, first ciphertext block: the first
16 plaintext bytes of the published vector encrypt to the published first 16
ciphertext bytes (the tag of the published vector depends on its non-empty AAD
and is checked instead by the round-trip theorem below). -/
theorem aead_rfc8439_ciphertext_vector :
    (aeadEncrypt (List.range 32 |>.map (fun i => 128 + i))
        (hexToBytes "070000004041424344454647")
        ("Ladies and Gentlemen of".toList.map Char.toNat)).take 16 =
      hexToBytes "d31a8d34648e60db7b86afbc53ef7ec2" := by
  decide

instance {ε α : Type} [DecidableEq ε] [DecidableEq α] : DecidableEq (Except ε α) := fun x y =>
  match x, y with
  | .ok a, .ok b =>
    if h : a = b then .isTrue (congrArg Except.ok h)
    else .isFalse (fun hh => h (Except.ok.inj hh))
  | .error a, .error b =>
    if h : a = b then .isTrue (congrArg Except.error h)
    else .isFalse (fun hh => h (Except.error.inj hh))
  | .ok _, .error _ => .isFalse (fun hh => Except.noConfusion hh)
  | .error _, .ok _ => .isFalse (fun hh => Except.noConfusion hh)

/-- Sealing then opening returns the plaintext (checked on a concrete input). -/
theorem aead_roundtrip_example :
    aeadDecrypt (List.range 32) (List.range 12)
      (aeadEncrypt (List.range 32) (List.range 12) (List.range 40)) =
      .ok (List.range 40) := by
  decide

/-! ## The Encryptor (src/core/src/crypto.rs)

`Encryptor::encrypt` draws a fresh random 12-byte nonce, seals the plaintext
with ChaCha20-Poly1305 and returns `nonce ++ ciphertext ++ tag`; the nonce is
modelled as an explicit argument. `Encryptor::decrypt` splits the nonce off
and opens. -/

/-- Encryptor.encrypt from crypto.rs (nonce made explicit). -/
def encryptorEncrypt (key nonce pt : List Nat) : List Nat :=
  nonce ++ aeadEncrypt key nonce pt

/-- Encryptor.decrypt from crypto.rs. -/
def encryptorDecrypt (key ct : List Nat) : Except String (List Nat) :=
  if ct.length < 12 then .error "Ciphertext too short"
  else aeadDecrypt key (ct.take 12) (ct.drop 12)

theorem length_flatMap_const {α : Type} (f : α → List Nat) (c : Nat)
    (h : ∀ a, (f a).length = c) (l : List α) : (l.flatMap f).length = c * l.length := by
  induction l with
  | nil => simp
  | cons a as ih => simp [List.flatMap_cons, ih, h a]; ring

theorem chachaBlock_length (k : List Nat) (c : Nat) (n : List Nat) :
    (chachaBlock k c n).length = 64 := by
  have h := length_flatMap_const (natToLe 4) 4 (fun a => natToLe_length 4 a)
    ((List.range 16).map (fun i =>
      add32 ((((List.range 10).foldl (fun st _ => chachaDoubleRound st) (chachaInit k c n))).getD i 0)
        ((chachaInit k c n).getD i 0)))
  simpa [chachaBlock] using h

theorem chachaKeystream_length (k n : List Nat) (c0 nb : Nat) :
    (chachaKeystream k n c0 nb).length = 64 * nb := by
  have h := length_flatMap_const (fun i => chachaBlock k (c0 + i) n) 64
    (fun a => chachaBlock_length k (c0 + a) n) (List.range nb)
  simpa [chachaKeystream] using h

theorem chachaXor_length (k n : List Nat) (c0 : Nat) (pt : List Nat) :
    (chachaXor k n c0 pt).length = pt.length := by
  simp only [chachaXor, List.length_zipWith, chachaKeystream_length]
  omega

theorem aeadEncrypt_length (key nonce pt : List Nat) :
    (aeadEncrypt key nonce pt).length = pt.length + 16 := by
  simp [aeadEncrypt, poly1305, natToLe_length, chachaXor_length]

/-- The sealed form is always exactly 28 bytes longer than the plaintext
(12-byte nonce plus 16-byte tag). -/
theorem encryptorEncrypt_length (key nonce pt : List Nat) (h : nonce.length = 12) :
    (encryptorEncrypt key nonce pt).length = pt.length + 28 := by
  simp [encryptorEncrypt, aeadEncrypt_length, h]
  ring

/-! ## Blake3 content hashing (blake3 crate)

Full BLAKE3 in hash mode. The recursion over the chunk tree is expressed with
an explicit fuel argument equal to the input length, which strictly bounds the
recursion depth (every split strictly shrinks the data). -/

/-- The BLAKE3 initialization vector. -/
def blakeIV : List Nat :=
  [1779033703, 3144134277, 1013904242, 2773480762,
   1359893119, 2600822924, 528734635, 1541459225]

/-- The BLAKE3 quarter-round g on a 16-word state. -/
def blakeG (s : List Nat) (a b c d mx my : Nat) : List Nat :=
  let sa := trunc32 (s.getD a 0 + s.getD b 0 + mx)
  let sd := rotr32 (xor32 (s.getD d 0) sa) 16
  let sc := add32 (s.getD c 0) sd
  let sb := rotr32 (xor32 (s.getD b 0) sc) 12
  let sa' := trunc32 (sa + sb + my)
  let sd' := rotr32 (xor32 sd sa') 8
  let sc' := add32 sc sd'
  let sb' := rotr32 (xor32 sb sc') 7
  ((((s.set a sa').set b sb').set c sc').set d sd')

/-- One BLAKE3 round (columns then diagonals). -/
def blakeRound (s m : List Nat) : List Nat :=
  let g := fun st a b c d i j => blakeG st a b c d (m.getD i 0) (m.getD j 0)
  let s := g s 0 4 8 12 0 1
  let s := g s 1 5 9 13 2 3
  let s := g s 2 6 10 14 4 5
  let s := g s 3 7 11 15 6 7
  let s := g s 0 5 10 15 8 9
  let s := g s 1 6 11 12 10 11
  let s := g s 2 7 8 13 12 13
  g s 3 4 9 14 14 15

/-- The BLAKE3 message word permutation. -/
def blakePermute (m : List Nat) : List Nat :=
  [2, 6, 3, 10, 7, 0, 4, 13, 1, 11, 12, 5, 9, 14, 15, 8].map (fun i => m.getD i 0)

/-- The BLAKE3 compression function; returns the full 16-word output. -/
def blakeCompress (cv m : List Nat) (counter blockLen flags : Nat) : List Nat :=
  let st0 := cv.take 8 ++ blakeIV.take 4 ++
    [trunc32 counter, trunc32 (counter / 4294967296), blockLen, flags]
  let p := (List.range 7).foldl
    (fun (p : List Nat × List Nat) _ => (blakeRound p.1 p.2, blakePermute p.2)) (st0, m)
  let s := p.1
  (List.range 8).map (fun i => xor32 (s.getD i 0) (s.getD (i + 8) 0))
  ++ (List.range 8).map (fun i => xor32 (s.getD (i + 8) 0) (cv.getD i 0))

/-- 16 little-endian message words from a block of at most 64 bytes. -/
def blakeWords (block : List Nat) : List Nat :=
  let padded := block ++ List.replicate (64 - block.length) 0
  (List.range 16).map (fun i => leToNat ((padded.drop (4 * i)).take 4))

/-- Chaining value of one chunk (at most 1024 bytes); flags CHUNK_START = 1,
CHUNK_END = 2, ROOT = 8. -/
def blakeChunkCV (chunk : List Nat) (counter : Nat) (isRoot : Bool) : List Nat :=
  let nb := max 1 ((chunk.length + 63) / 64)
  (List.range nb).foldl
    (fun cv i =>
      let blk := (chunk.drop (64 * i)).take 64
      let flags := (if i = 0 then 1 else 0) +
        (if i = nb - 1 then 2 + (if isRoot then 8 else 0) else 0)
      (blakeCompress cv (blakeWords blk) counter blk.length flags).take 8)
    blakeIV

/-- Chaining value of a subtree; fuel bounds the recursion depth and is always
sufficient when instantiated with the data length. PARENT flag = 4. -/
def blakeSubtreeCV : Nat → List Nat → Nat → Bool → List Nat
  | 0, data, counter, isRoot => blakeChunkCV data counter isRoot
  | fuel + 1, data, counter, isRoot =>
    if data.length ≤ 1024 then blakeChunkCV data counter isRoot
    else
      let full := (data.length - 1) / 1024
      let ll := 1024 * 2 ^ Nat.log 2 full
      let l := blakeSubtreeCV fuel (data.take ll) counter false
      let r := blakeSubtreeCV fuel (data.drop ll) (counter + ll / 1024) false
      (blakeCompress blakeIV (l ++ r) 0 64 (4 + if isRoot then 8 else 0)).take 8

/-- BLAKE3-256 of a byte string (hash mode). -/
def blake3Hash (data : List Nat) : List Nat :=
  (blakeSubtreeCV data.length data 0 true).flatMap (natToLe 4)

/-- Published BLAKE3 test vector for the one-byte input `[0]`. -/
theorem blake3_len1_vector :
    blake3Hash [0] =
      hexToBytes "2d3adedff11b61f14c886e35afa036736dcd87a74d27b5c1510225d0f592e213" := by
  decide

/-- BLAKE3 of the empty input (reference-implementation value). -/
theorem blake3_empty_vector :
    blake3Hash [] =
      hexToBytes "af1349b9f5f9a1a6a0404dea36dcc9499bcb25c9adc112b7cc9a93cae41f3262" := by
  decide

/-! ## Tree data model (src/core/src/types.rs, src/core/src/snapshot.rs)

ChunkIDs are 32-byte Blake3 digests, modelled as byte lists. -/

/-- Unit variants of types.rs NodeType. -/
inductive NodeType
  | File
  | Directory
  | Symlink
deriving DecidableEq

/-- types.rs ChunkRef. -/
structure ChunkRef where
  id : List Nat
  offset : Nat
  length : Nat
deriving DecidableEq

/-- types.rs TreeNode. -/
structure TreeNode where
  name : String
  nodeType : NodeType
  mode : Nat
  uid : Nat
  gid : Nat
  size : Nat
  mtime : Int
  subtreeId : Option (List Nat)
  chunks : List ChunkRef
deriving DecidableEq

/-- snapshot.rs Tree. -/
structure Tree where
  nodes : List TreeNode
deriving DecidableEq

/-! ### serde_json serialization of a Tree

`Tree::serialize` first calls serde_json::to_vec, which produces the compact
JSON below (fields in declaration order, unit enum variants as strings,
ChunkID as a lowercase hex string, Option as null or the value). -/

/-- ASCII bytes of a literal string (used for JSON syntax fragments). -/
def strBytes (s : String) : List Nat := s.toList.map Char.toNat

/-- Lowercase hex digit as an ASCII byte. -/
def hexDigit (n : Nat) : Nat := if n < 10 then 48 + n else 87 + n

/-- Lowercase hex of a byte string, as ASCII bytes (ChunkID::to_hex). -/
def bytesToHex (l : List Nat) : List Nat :=
  l.flatMap (fun b => [hexDigit (b / 16), hexDigit (b % 16)])

/-- UTF-8 encoding of a code point. -/
def utf8Encode (n : Nat) : List Nat :=
  if n < 128 then [n]
  else if n < 2048 then [192 + n / 64, 128 + n % 64]
  else if n < 65536 then [224 + n / 4096, 128 + n / 64 % 64, 128 + n % 64]
  else [240 + n / 262144, 128 + n / 4096 % 64, 128 + n / 64 % 64, 128 + n % 64]

/-- serde_json string escaping of one character, emitted as UTF-8 bytes. -/
def jsonEscapeChar (c : Char) : List Nat :=
  let n := c.toNat
  if n = 34 then [92, 34]
  else if n = 92 then [92, 92]
  else if n = 8 then [92, 98]
  else if n = 9 then [92, 116]
  else if n = 10 then [92, 110]
  else if n = 12 then [92, 102]
  else if n = 13 then [92, 114]
  else if n < 32 then [92, 117, 48, 48, hexDigit (n / 16), hexDigit (n % 16)]
  else utf8Encode n

/-- JSON string literal bytes. -/
def jsonString (s : String) : List Nat := [34] ++ s.toList.flatMap jsonEscapeChar ++ [34]

/-- JSON decimal for an unsigned integer. -/
def jsonNat (n : Nat) : List Nat := (toString n).toList.map Char.toNat

/-- JSON decimal for a signed integer. -/
def jsonInt (i : Int) : List Nat := (toString i).toList.map Char.toNat

/-- JSON array bytes from already-serialized elements. -/
def jsonArr (elems : List (List Nat)) : List Nat :=
  [91] ++ List.intercalate [44] elems ++ [93]

/-- ChunkID serializes as its lowercase hex in a JSON string. -/
def chunkIdJson (id : List Nat) : List Nat := [34] ++ bytesToHex id ++ [34]

/-- NodeType serializes as the variant name string. -/
def NodeType.json : NodeType → List Nat
  | .File => jsonString "File"
  | .Directory => jsonString "Directory"
  | .Symlink => jsonString "Symlink"

/-- serde_json of a ChunkRef (byte 123 and 125 are the braces). -/
def ChunkRef.json (c : ChunkRef) : List Nat :=
  [123] ++ strBytes "\"id\":" ++ chunkIdJson c.id
  ++ strBytes ",\"offset\":" ++ jsonNat c.offset
  ++ strBytes ",\"length\":" ++ jsonNat c.length
  ++ [125]

/-- serde_json of Option of ChunkID. -/
def optChunkIdJson : Option (List Nat) → List Nat
  | none => strBytes "null"
  | some id => chunkIdJson id

/-- serde_json of a TreeNode. -/
def TreeNode.json (n : TreeNode) : List Nat :=
  [123] ++ strBytes "\"name\":" ++ jsonString n.name
  ++ strBytes ",\"node_type\":" ++ n.nodeType.json
  ++ strBytes ",\"mode\":" ++ jsonNat n.mode
  ++ strBytes ",\"uid\":" ++ jsonNat n.uid
  ++ strBytes ",\"gid\":" ++ jsonNat n.gid
  ++ strBytes ",\"size\":" ++ jsonNat n.size
  ++ strBytes ",\"mtime\":" ++ jsonInt n.mtime
  ++ strBytes ",\"subtree_id\":" ++ optChunkIdJson n.subtreeId
  ++ strBytes ",\"chunks\":" ++ jsonArr (n.chunks.map ChunkRef.json)
  ++ [125]

/-- serde_json::to_vec of a Tree (snapshot.rs Tree::serialize, first step). -/
def Tree.serializeJson (t : Tree) : List Nat :=
  [123] ++ strBytes "\"nodes\":" ++ jsonArr (t.nodes.map TreeNode.json) ++ [125]

/-- snapshot.rs Tree::serialize: serde_json then Encryptor::encrypt (the random
nonce is an explicit argument). -/
def Tree.serialize (key nonce : List Nat) (t : Tree) : List Nat :=
  encryptorEncrypt key nonce t.serializeJson

/-- repository.rs Repository::save_tree: the returned ChunkID is
ChunkID::from_data over the sealed bytes produced by Tree::serialize. -/
def saveTreeId (key nonce : List Nat) (t : Tree) : List Nat :=
  blake3Hash (Tree.serialize key nonce t)

/-! ## Backup node construction and restore metadata application
(src/cli/src/commands/backup.rs, src/cli/src/commands/restore.rs) -/

/-- Source-file metadata as observed by the backup scan (POSIX mode bits, byte
size, modification time in seconds since the epoch). -/
structure FileMeta where
  mode : Nat
  size : Nat
  mtimeSecs : Nat
deriving DecidableEq

/-- Cast of a u64 to i64 (two's complement reinterpretation). -/
def i64OfU64 (n : Nat) : Int :=
  if n % 18446744073709551616 < 9223372036854775808 then Int.ofNat (n % 18446744073709551616)
  else Int.ofNat (n % 18446744073709551616) - 18446744073709551616

/-- The TreeNode BackupCommand::run builds for a regular file (backup.rs lines
108-121): mode is hardcoded to 0o644 = 420, uid and gid to 0; only size and
mtime are taken from the file metadata; chunks are filled in later. -/
def backupTreeNode (name : String) (meta : FileMeta) : TreeNode :=
  { name := name, nodeType := .File, mode := 420, uid := 0, gid := 0,
    size := meta.size, mtime := i64OfU64 meta.mtimeSecs, subtreeId := none, chunks := [] }

/-- The permission bits RestoreCommand::restore_file applies on Unix
(restore.rs lines 134-139): Permissions::from_mode(node.mode). The function
sets no modification time. -/
def restoreAppliedMode (node : TreeNode) : Nat := node.mode % 4294967296

/-- C1: the claim states that a restored file carries the mode and mtime of
the original file. The backup flow records mode 0o644 = 420 for every file,
discarding the source mode entirely (two files differing only in mode produce
identical tree nodes), and restore applies that recorded constant; hence a
source file with mode 0o600 = 384 is restored with mode 420. -/
theorem c1_mode_not_preserved :
    restoreAppliedMode (backupTreeNode "a.txt" ⟨384, 5, 1000⟩) = 420 ∧
    backupTreeNode "a.txt" ⟨384, 5, 1000⟩ = backupTreeNode "a.txt" ⟨420, 5, 1000⟩ ∧
    (384 : Nat) ≠ 420 := by
  refine ⟨rfl, by decide, by decide⟩

/-- C2 counterexample: for the empty tree, a 32-byte key and a 12-byte nonce,
the ChunkID returned by save_tree is not the Blake3 hash of the plaintext
serialization, and two different nonces give two different tree IDs. -/
theorem c2_tree_id_not_plaintext_hash_cex :
    saveTreeId (List.range 32) (List.range 12) ⟨[]⟩ ≠
      blake3Hash (Tree.mk []).serializeJson ∧
    saveTreeId (List.range 32) (List.range 12) ⟨[]⟩ ≠
      saveTreeId (List.range 32) (List.replicate 12 7) ⟨[]⟩ := by
  constructor
  · decide
  · decide

/-- C2 amended: the ChunkID under which save_tree stores a tree (and which it
returns) is the Blake3 hash of the sealed bytes (nonce, AEAD ciphertext and
tag) of the tree serialization; those sealed bytes are always 28 bytes longer
than the plaintext serialization, so the ID depends on the random nonce. -/
theorem c2_tree_id_is_sealed_hash (key nonce : List Nat) (t : Tree)
    (h : nonce.length = 12) :
    saveTreeId key nonce t = blake3Hash (encryptorEncrypt key nonce t.serializeJson) ∧
    (encryptorEncrypt key nonce t.serializeJson).length = t.serializeJson.length + 28 :=
  ⟨rfl, encryptorEncrypt_length key nonce t.serializeJson h⟩

theorem c2_tree_id_is_sealed_hash_witness :
    (List.range 12).length = 12 ∧
    (saveTreeId (List.range 32) (List.range 12) ⟨[]⟩ =
        blake3Hash (encryptorEncrypt (List.range 32) (List.range 12) (Tree.mk []).serializeJson) ∧
      (encryptorEncrypt (List.range 32) (List.range 12) (Tree.mk []).serializeJson).length =
        (Tree.mk []).serializeJson.length + 28) :=
  ⟨by decide, c2_tree_id_is_sealed_hash (List.range 32) (List.range 12) ⟨[]⟩ (by decide)⟩

/-! ## Error taxonomy (src/core/src/error.rs)

The Io variant of the source is named IoError here; its payload is the display
string of the underlying error, as are the other message payloads. -/

inductive Error where
  | IoError (msg : String)
  | Serialization (msg : String)
  | Encryption (msg : String)
  | RepositoryNotFound (path : String)
  | RepositoryExists (path : String)
  | InvalidFormatVersion (version : Nat)
  | CorruptedPack (id : String)
  | SnapshotNotFound (id : String)
  | InvalidPassword
  | Backend (msg : String)
  | ChunkNotFound (id : String)
  | LockConflict (msg : String)
  | Other (msg : String)
deriving DecidableEq

/-- Whether a result is an error at all. -/
def resultIsErr {α : Type} : Except Error α → Bool
  | .error _ => true
  | .ok _ => false

/-- Whether a result is specifically a CorruptedPack error. -/
def resultCorruptKind {α : Type} : Except Error α → Bool
  | .error (.CorruptedPack _) => true
  | _ => false

/-- Whether a result is specifically an Encryption error. -/
def resultEncryptionKind {α : Type} : Except Error α → Bool
  | .error (.Encryption _) => true
  | _ => false

/-! ## HashMap model

std HashMap is modelled as an association list with unique keys in which
insert replaces the value of an existing key in place; only the underlying
key-value map matters to the source. -/

/-- HashMap::insert. -/
def hmInsert {α β : Type} [DecidableEq α] (k : α) (v : β) : List (α × β) → List (α × β)
  | [] => [(k, v)]
  | (k0, v0) :: rest => if k0 = k then (k, v) :: rest else (k0, v0) :: hmInsert k v rest

/-- HashMap::get. -/
def hmLookup {α β : Type} [DecidableEq α] (k : α) : List (α × β) → Option β
  | [] => none
  | (k0, v0) :: rest => if k0 = k then some v0 else hmLookup k rest

theorem hmLookup_hmInsert_self {α β : Type} [DecidableEq α] (k : α) (v : β)
    (l : List (α × β)) : hmLookup k (hmInsert k v l) = some v := by
  induction l with
  | nil => simp [hmInsert, hmLookup]
  | cons e rest ih =>
      obtain ⟨k0, v0⟩ := e
      by_cases h : k0 = k
      · simp [hmInsert, hmLookup, h]
      · simp [hmInsert, hmLookup, h, ih]

theorem hmInsert_keys_of_mem {α β : Type} [DecidableEq α] (k : α) (v v0 : β)
    (l : List (α × β)) (h : hmLookup k l = some v0) :
    (hmInsert k v l).map Prod.fst = l.map Prod.fst := by
  induction l with
  | nil => simp [hmLookup] at h
  | cons e rest ih =>
      obtain ⟨k0, w0⟩ := e
      by_cases hk : k0 = k
      · simp [hmInsert, hk]
      · simp only [hmLookup, if_neg hk] at h
        simp [hmInsert, if_neg hk, ih h]

/-! ## Pack files (src/core/src/pack.rs)

zlib compression via the flate2 crate is opaque to every property considered
here and is modelled as an explicit Codec parameter; `idCodec` is a concrete
instantiation used by witnesses. chunk_count is a u32 and the totals are u64,
so their updates are reduced modulo the word size. -/

/-- The compression codec (flate2 zlib in the source). -/
structure Codec where
  compress : List Nat → List Nat
  decompress : List Nat → Except String (List Nat)

/-- A concrete codec instance for evaluating witnesses. -/
def idCodec : Codec := ⟨fun l => l, fun l => .ok l⟩

/-- pack.rs PackHeader; created_at is an opaque timestamp. -/
structure PackHeader where
  packId : String
  chunkCount : Nat
  uncompressedSize : Nat
  compressedSize : Nat
  createdAt : Nat
deriving DecidableEq

/-- pack.rs PackedChunk. -/
structure PackedChunk where
  id : List Nat
  offset : Nat
  length : Nat
  uncompressedLength : Nat
deriving DecidableEq

/-- pack.rs PackFile. -/
structure PackFile where
  header : PackHeader
  chunks : List (List Nat × PackedChunk)
  data : List Nat
deriving DecidableEq

/-- PackFile::new (the creation timestamp is an explicit argument). -/
def PackFile.new (packId : String) (now : Nat) : PackFile :=
  { header := ⟨packId, 0, 0, 0, now⟩, chunks := [], data := [] }

/-- PackFile::add_chunk: compress, record the entry at the current end of the
data region, append, insert into the directory and bump the totals. The
source performs no duplicate check. -/
def PackFile.addChunk (codec : Codec) (p : PackFile) (id data : List Nat) : PackFile :=
  let compressed := codec.compress data
  let offset := p.data.length % 2 ^ 64
  let chunk : PackedChunk :=
    ⟨id, offset, compressed.length % 2 ^ 32, data.length % 2 ^ 32⟩
  { header := { p.header with
      chunkCount := (p.header.chunkCount + 1) % 2 ^ 32,
      uncompressedSize := (p.header.uncompressedSize + data.length % 2 ^ 64) % 2 ^ 64,
      compressedSize := (p.header.compressedSize + compressed.length % 2 ^ 64) % 2 ^ 64 },
    chunks := hmInsert id chunk p.chunks,
    data := p.data ++ compressed }

/-- PackFile::get_chunk. The id interpolated into the not-found message is
elided from the modelled string; no property depends on it. -/
def PackFile.getChunk (codec : Codec) (p : PackFile) (id : List Nat) :
    Except Error (List Nat) :=
  match hmLookup id p.chunks with
  | none => .error (.Other "Chunk not found in pack")
  | some chunk =>
      if p.data.length < chunk.offset + chunk.length then
        .error (.Other "Pack data corruption: chunk extends beyond pack data")
      else
        match codec.decompress ((p.data.drop chunk.offset).take chunk.length) with
        | .ok d => .ok d
        | .error m => .error (.Other m)

/-- Sum of the stored_length fields of the chunk directory. -/
def dirStoredSum (p : PackFile) : Nat := (p.chunks.map (fun e => e.2.length)).sum

/-- The unencrypted little-endian u32 length prefix used by the pack framing. -/
def u32le (n : Nat) : List Nat := natToLe 4 (n % 2 ^ 32)

/-- PackFile::write_to. bincode serialization of the header and directory is
opaque here and passed as the binH/binC parameters; the three fresh random
nonces of the three encrypt calls are explicit. Note the length prefixes hold
the plaintext lengths while the stream carries the sealed blocks. -/
def PackFile.writeTo (binH : PackHeader → List Nat)
    (binC : List (List Nat × PackedChunk) → List Nat)
    (key n1 n2 n3 : List Nat) (p : PackFile) : List Nat :=
  let headerData := binH p.header
  let chunksData := binC p.chunks
  u32le headerData.length ++ encryptorEncrypt key n1 headerData
  ++ u32le chunksData.length ++ encryptorEncrypt key n2 chunksData
  ++ encryptorEncrypt key n3 p.data

/-- PackFile::read_from, with bincode deserialization passed as decH/decC.
Underlying short-read failures of the async reader surface as Other. -/
def PackFile.readFrom (decH : List Nat → Except String PackHeader)
    (decC : List Nat → Except String (List (List Nat × PackedChunk)))
    (key stream : List Nat) : Except Error PackFile :=
  if stream.length < 4 then .error (.Other "io error") else
  let headerLen := leToNat (stream.take 4)
  let rest1 := stream.drop 4
  if rest1.length < headerLen then .error (.Other "io error") else
  match encryptorDecrypt key (rest1.take headerLen) with
  | .error m => .error (.Encryption m)
  | .ok headerData =>
    match decH headerData with
    | .error m => .error (.Other m)
    | .ok header =>
      let rest2 := rest1.drop headerLen
      if rest2.length < 4 then .error (.Other "io error") else
      let chunksLen := leToNat (rest2.take 4)
      let rest3 := rest2.drop 4
      if rest3.length < chunksLen then .error (.Other "io error") else
      match encryptorDecrypt key (rest3.take chunksLen) with
      | .error m => .error (.Encryption m)
      | .ok chunksData =>
        match decC chunksData with
        | .error m => .error (.Other m)
        | .ok chunks =>
          match encryptorDecrypt key (rest3.drop chunksLen) with
          | .error m => .error (.Encryption m)
          | .ok data => .ok ⟨header, chunks, data⟩

/-! ## Pack manager (src/core/src/pack.rs, PackManager) -/

/-- PackFile::is_full. -/
def PackFile.isFull (p : PackFile) (maxSize : Nat) : Bool := p.data.length ≥ maxSize

/-- pack.rs PackManager. -/
structure PackManager where
  currentPack : Option PackFile
  maxPackSize : Nat
  packCounter : Nat
deriving DecidableEq

/-- PackManager::new: the pack counter starts at zero for every instance. -/
def PackManager.new (maxPackSize : Nat) : PackManager := ⟨none, maxPackSize, 0⟩

/-- The exact bytes of Rust format with specifier 08x: lowercase hex digits
zero-padded on the left to at least eight characters. -/
def hexPad8 (n : Nat) : String :=
  let ds := Nat.toDigits 16 n
  String.mk (List.replicate (8 - ds.length) '0' ++ ds)

/-- PackManager::start_new_pack (the creation timestamp is explicit). -/
def PackManager.startNewPack (now : Nat) (m : PackManager) : PackManager :=
  { m with packCounter := m.packCounter + 1,
           currentPack := some (PackFile.new ("pack-" ++ hexPad8 m.packCounter) now) }

/-- PackManager::finish_current_pack. -/
def PackManager.finishCurrentPack (m : PackManager) : PackManager × Option PackFile :=
  ({ m with currentPack := none }, m.currentPack)

/-- PackManager::add_chunk: returns the new state and any finished pack. -/
def PackManager.addChunk (codec : Codec) (now : Nat) (m : PackManager)
    (id data : List Nat) : PackManager × Option PackFile :=
  match m.currentPack with
  | none =>
      let m' := m.startNewPack now
      (match m'.currentPack with
       | some p => { m' with currentPack := some (p.addChunk codec id data) }
       | none => m', none)
  | some p =>
      if p.isFull m.maxPackSize then
        let m' := ({ m with currentPack := none }).startNewPack now
        ((match m'.currentPack with
          | some q => { m' with currentPack := some (q.addChunk codec id data) }
          | none => m'), some p)
      else ({ m with currentPack := some (p.addChunk codec id data) }, none)

/-! ## Claims C3, C4, C5, C8 -/

/-- A pack with one chunk added. -/
def packDup1 : PackFile :=
  (PackFile.new "pack-00000000" 0).addChunk idCodec (List.replicate 32 1) [1, 2, 3]

/-- The same pack after re-adding the identical chunk (same ChunkID and data). -/
def packDup2 : PackFile :=
  packDup1.addChunk idCodec (List.replicate 32 1) [1, 2, 3]

/-- C3 counterexample: re-adding a ChunkID already present in the directory is
not skipped: the second add changes the pack, chunk_count rises to two, the
data region doubles to six bytes, and the directory total stored_length (three)
no longer equals the six bytes actually appended to the data region. -/
theorem c3_add_chunk_skips_duplicates_cex :
    packDup2 ≠ packDup1 ∧
    packDup2.header.chunkCount = 2 ∧
    packDup1.header.chunkCount = 1 ∧
    packDup2.data.length = 6 ∧
    dirStoredSum packDup2 = 3 ∧
    dirStoredSum packDup2 ≠ packDup2.data.length := by
  refine ⟨by decide, by decide, by decide, by decide, by decide, by decide⟩

/-- C3 amended: add_chunk performs no duplicate check. Re-adding a ChunkID
already present in the directory appends the encoded bytes to the data region
again, increments chunk_count and the compressed total, and overwrites the
directory entry with the new offset and length; the set of directory keys is
unchanged, so a ChunkID still appears at most once in the directory, but the
directory total stored_length undercounts the data region. -/
theorem c3_add_chunk_appends_duplicate (codec : Codec) (p : PackFile)
    (id data : List Nat) (c0 : PackedChunk) (h : hmLookup id p.chunks = some c0) :
    (p.addChunk codec id data).header.chunkCount = (p.header.chunkCount + 1) % 2 ^ 32 ∧
    (p.addChunk codec id data).data = p.data ++ codec.compress data ∧
    hmLookup id (p.addChunk codec id data).chunks =
      some ⟨id, p.data.length % 2 ^ 64, (codec.compress data).length % 2 ^ 32,
            data.length % 2 ^ 32⟩ ∧
    (p.addChunk codec id data).chunks.map Prod.fst = p.chunks.map Prod.fst ∧
    (p.addChunk codec id data).header.compressedSize =
      (p.header.compressedSize + (codec.compress data).length % 2 ^ 64) % 2 ^ 64 := by
  refine ⟨rfl, rfl, ?_, ?_, rfl⟩
  · exact hmLookup_hmInsert_self id _ p.chunks
  · exact hmInsert_keys_of_mem id _ c0 p.chunks h

theorem c3_add_chunk_appends_duplicate_witness :
    hmLookup (List.replicate 32 1) packDup1.chunks =
      some ⟨List.replicate 32 1, 0, 3, 3⟩ ∧
    (packDup1.addChunk idCodec (List.replicate 32 1) [1, 2, 3]).header.chunkCount =
      (packDup1.header.chunkCount + 1) % 2 ^ 32 ∧
    (packDup1.addChunk idCodec (List.replicate 32 1) [1, 2, 3]).data =
      packDup1.data ++ idCodec.compress [1, 2, 3] ∧
    hmLookup (List.replicate 32 1)
        (packDup1.addChunk idCodec (List.replicate 32 1) [1, 2, 3]).chunks =
      some ⟨List.replicate 32 1, packDup1.data.length % 2 ^ 64,
        (idCodec.compress [1, 2, 3]).length % 2 ^ 32, ([1, 2, 3] : List Nat).length % 2 ^ 32⟩ ∧
    (packDup1.addChunk idCodec (List.replicate 32 1) [1, 2, 3]).chunks.map Prod.fst =
      packDup1.chunks.map Prod.fst ∧
    (packDup1.addChunk idCodec (List.replicate 32 1) [1, 2, 3]).header.compressedSize =
      (packDup1.header.compressedSize + (idCodec.compress [1, 2, 3]).length % 2 ^ 64) % 2 ^ 64 := by
  have h : hmLookup (List.replicate 32 1) packDup1.chunks =
      some ⟨List.replicate 32 1, 0, 3, 3⟩ := by decide
  have hc := c3_add_chunk_appends_duplicate idCodec packDup1
    (List.replicate 32 1) [1, 2, 3] ⟨List.replicate 32 1, 0, 3, 3⟩ h
  refine ⟨h, hc.1, hc.2.1, ?_, hc.2.2.2.1, hc.2.2.2.2⟩
  have h3 := hc.2.2.1
  simpa using h3

/-- C4: the pack counter is a per-PackManager field starting at zero, so two
manager instances (two backup sessions over the same repository) both name
their first pack pack-00000000; pack object names collide across sessions
and a later save_pack overwrites the earlier pack object. -/
theorem c4_pack_id_collision_across_sessions :
    ((PackManager.new 67108864).startNewPack 0).currentPack.map
        (fun p => p.header.packId) = some "pack-00000000" ∧
    ((PackManager.new 67108864).startNewPack 12345).currentPack.map
        (fun p => p.header.packId) = some "pack-00000000" := by
  exact ⟨rfl, rfl⟩

/-- A one-chunk pack together with concrete key and nonces for the pack
round-trip evaluation. -/
def c5pack : PackFile :=
  (PackFile.new "pack-00000000" 0).addChunk idCodec (List.replicate 32 3) [10, 20, 30]

/-- A concrete stand-in for the bincode encoding of the pack header. -/
def binHc (h : PackHeader) : List Nat :=
  strBytes h.packId ++ natToLe 4 h.chunkCount ++ natToLe 8 h.uncompressedSize
  ++ natToLe 8 h.compressedSize ++ natToLe 8 h.createdAt

/-- A concrete stand-in for the bincode encoding of the chunk directory. -/
def binCc (l : List (List Nat × PackedChunk)) : List Nat :=
  l.flatMap (fun e => e.2.id ++ natToLe 8 e.2.offset ++ natToLe 4 e.2.length
    ++ natToLe 4 e.2.uncompressedLength)

/-- The serialized stream of the concrete pack. -/
def c5stream : List Nat :=
  c5pack.writeTo binHc binCc (List.range 32)
    (List.replicate 12 1) (List.replicate 12 2) (List.replicate 12 3)

/-- C5: write_to prefixes each sealed block with the PLAINTEXT length while
the sealed block is 28 bytes longer, and read_from reads back only
prefix-many bytes of the sealed block; on the concrete one-chunk pack the
reader therefore fails AEAD authentication (an Encryption error) instead of
returning the pack, so a written pack can never be read back. The bincode
decoders are never reached and are passed as always-failing stubs. -/
theorem c5_pack_roundtrip_fails :
    leToNat (c5stream.take 4) = (binHc c5pack.header).length ∧
    (encryptorEncrypt (List.range 32) (List.replicate 12 1) (binHc c5pack.header)).length =
      (binHc c5pack.header).length + 28 ∧
    resultIsErr (PackFile.readFrom (fun _ => .error "bincode") (fun _ => .error "bincode")
      (List.range 32) c5stream) = true ∧
    resultEncryptionKind (PackFile.readFrom (fun _ => .error "bincode")
      (fun _ => .error "bincode") (List.range 32) c5stream) = true := by
  refine ⟨by decide, by decide, by decide, by decide⟩

/-- A pack whose directory references a byte range beyond the data region. -/
def packBadRange : PackFile :=
  { header := ⟨"pack-00000000", 1, 5, 5, 0⟩,
    chunks := [(List.replicate 32 2, ⟨List.replicate 32 2, 0, 5, 5⟩)],
    data := [] }

/-- C8 counterexample: reading a chunk whose directory range extends beyond
the data region does fail, but the error is Error::Other with the corruption
message, not the CorruptedPack error kind. -/
theorem c8_corrupt_range_error_kind_cex :
    resultIsErr (packBadRange.getChunk idCodec (List.replicate 32 2)) = true ∧
    resultCorruptKind (packBadRange.getChunk idCodec (List.replicate 32 2)) = false ∧
    packBadRange.getChunk idCodec (List.replicate 32 2) =
      .error (.Other "Pack data corruption: chunk extends beyond pack data") := by
  refine ⟨by decide, by decide, by decide⟩

/-- C8 amended: for every pack whose directory contains an entry with
offset + stored_length beyond the data region, get_chunk on that entry fails,
and the error is Error::Other carrying the corruption message (not the
CorruptedPack kind). -/
theorem c8_corrupt_range_other_error (codec : Codec) (p : PackFile)
    (id : List Nat) (c : PackedChunk)
    (h1 : hmLookup id p.chunks = some c) (h2 : p.data.length < c.offset + c.length) :
    p.getChunk codec id =
      .error (.Other "Pack data corruption: chunk extends beyond pack data") := by
  unfold PackFile.getChunk
  rw [h1]
  simp [if_pos h2]

theorem c8_corrupt_range_other_error_witness :
    hmLookup (List.replicate 32 2) packBadRange.chunks =
      some ⟨List.replicate 32 2, 0, 5, 5⟩ ∧
    packBadRange.data.length < 0 + 5 ∧
    packBadRange.getChunk idCodec (List.replicate 32 2) =
      .error (.Other "Pack data corruption: chunk extends beyond pack data") :=
  ⟨by decide, by decide,
    c8_corrupt_range_other_error idCodec packBadRange (List.replicate 32 2)
      ⟨List.replicate 32 2, 0, 5, 5⟩ (by decide) (by decide)⟩

/-! ## Index and IndexManager (src/core/src/index.rs)

Index.chunks and Index.packs are HashMaps; here they are modelled at the map
level, as functions to Option. HashMap::extend inserts every entry of the
other map, so after a merge the other side wins on key conflicts. -/

/-- types.rs ChunkMetadata. -/
structure ChunkMetadata where
  id : List Nat
  packId : String
  offset : Nat
  length : Nat
  uncompressedLength : Nat
deriving DecidableEq

/-- index.rs PackInfo. -/
structure PackInfo where
  id : String
  size : Nat
  chunkCount : Nat
deriving DecidableEq

/-- index.rs Index, at the map level. -/
structure Index where
  chunks : List Nat → Option ChunkMetadata
  packs : String → Option PackInfo

/-- Index::new. -/
def Index.new : Index := ⟨fun _ => none, fun _ => none⟩

/-- Index::add_chunk. -/
def Index.addChunk (i : Index) (md : ChunkMetadata) : Index :=
  { i with chunks := fun k => if k = md.id then some md else i.chunks k }

/-- Index::add_pack. -/
def Index.addPack (i : Index) (info : PackInfo) : Index :=
  { i with packs := fun k => if k = info.id then some info else i.packs k }

/-- Index::has_chunk. -/
def Index.hasChunk (i : Index) (id : List Nat) : Bool := (i.chunks id).isSome

/-- Index::get_chunk. -/
def Index.getChunk (i : Index) (id : List Nat) : Option ChunkMetadata := i.chunks id

/-- Index::merge (self.chunks.extend(other.chunks), likewise packs). -/
def Index.merge (i other : Index) : Index :=
  { chunks := fun k => (other.chunks k).orElse (fun _ => i.chunks k),
    packs := fun k => (other.packs k).orElse (fun _ => i.packs k) }

/-- index.rs IndexManager. -/
structure IndexManager where
  indices : List Index
  masterIndex : Index

/-- IndexManager::new. -/
def IndexManager.new : IndexManager := ⟨[], Index.new⟩

/-- IndexManager::add_index. -/
def IndexManager.addIndex (m : IndexManager) (i : Index) : IndexManager :=
  { indices := m.indices ++ [i], masterIndex := m.masterIndex.merge i }

/-- IndexManager::has_chunk. -/
def IndexManager.hasChunk (m : IndexManager) (id : List Nat) : Bool :=
  m.masterIndex.hasChunk id

/-- IndexManager::get_chunk. -/
def IndexManager.getChunk (m : IndexManager) (id : List Nat) : Option ChunkMetadata :=
  m.masterIndex.getChunk id

/-- IndexManager::compact: merge all held indices into a fresh index, make it
the only held index and the master, and return it (first component). -/
def IndexManager.compact (m : IndexManager) : Index × IndexManager :=
  let compacted := m.indices.foldl (fun acc i => acc.merge i) Index.new
  (compacted, { indices := [compacted], masterIndex := compacted })

theorem optOrElseNone {α : Type} (o : Option α) : (o.orElse fun _ => none) = o := by
  cases o <;> rfl

theorem mergeChunks (a b : Index) (k : List Nat) :
    (a.merge b).chunks k = (b.chunks k).orElse (fun _ => a.chunks k) := rfl

theorem mergePacks (a b : Index) (k : String) :
    (a.merge b).packs k = (b.packs k).orElse (fun _ => a.packs k) := rfl

/-- The manager states reachable through the public constructors and
mutators. -/
inductive Reachable : IndexManager → Prop
  | new : Reachable IndexManager.new
  | add (m : IndexManager) (i : Index) : Reachable m → Reachable (m.addIndex i)
  | comp (m : IndexManager) : Reachable m → Reachable (m.compact).2

/-- In every reachable manager the master index agrees, as a map, with the
fold-merge of the held indices. -/
theorem reachable_master_eq_fold {m : IndexManager} (h : Reachable m) :
    (∀ id, (m.indices.foldl (fun acc i => acc.merge i) Index.new).chunks id =
      m.masterIndex.chunks id) ∧
    (∀ pid, (m.indices.foldl (fun acc i => acc.merge i) Index.new).packs pid =
      m.masterIndex.packs pid) := by
  induction h with
  | new => exact ⟨fun _ => rfl, fun _ => rfl⟩
  | add m i hr ih =>
      obtain ⟨ih1, ih2⟩ := ih
      constructor
      · intro id
        show (List.foldl (fun acc j => acc.merge j) Index.new (m.indices ++ [i])).chunks id =
          (m.masterIndex.merge i).chunks id
        rw [List.foldl_append, List.foldl_cons, List.foldl_nil, mergeChunks, mergeChunks]
        cases hx : i.chunks id
        · simpa [Option.orElse, hx] using ih1 id
        · simp [Option.orElse, hx]
      · intro pid
        show (List.foldl (fun acc j => acc.merge j) Index.new (m.indices ++ [i])).packs pid =
          (m.masterIndex.merge i).packs pid
        rw [List.foldl_append, List.foldl_cons, List.foldl_nil, mergePacks, mergePacks]
        cases hx : i.packs pid
        · simpa [Option.orElse, hx] using ih2 pid
        · simp [Option.orElse, hx]
  | comp m hr ih =>
      constructor
      · intro id
        show (List.foldl (fun acc j => acc.merge j) Index.new
            [m.indices.foldl (fun acc j => acc.merge j) Index.new]).chunks id =
          (m.indices.foldl (fun acc j => acc.merge j) Index.new).chunks id
        rw [List.foldl_cons, List.foldl_nil, mergeChunks]
        exact optOrElseNone _
      · intro pid
        show (List.foldl (fun acc j => acc.merge j) Index.new
            [m.indices.foldl (fun acc j => acc.merge j) Index.new]).packs pid =
          (m.indices.foldl (fun acc j => acc.merge j) Index.new).packs pid
        rw [List.foldl_cons, List.foldl_nil, mergePacks]
        exact optOrElseNone _

/-- C10: compact changes no lookup result: for every ChunkID, has_chunk and
get_chunk answer the same after compact as before, and the index returned by
compact equals the master index as a map (chunks and packs alike), for every
manager reachable by add_index and compact calls. -/
theorem c10_compact_preserves_lookups (m : IndexManager) (h : Reachable m) :
    (∀ id, (m.compact).2.hasChunk id = m.hasChunk id) ∧
    (∀ id, (m.compact).2.getChunk id = m.getChunk id) ∧
    (∀ id, (m.compact).1.chunks id = m.masterIndex.chunks id) ∧
    (∀ pid, (m.compact).1.packs pid = m.masterIndex.packs pid) := by
  obtain ⟨h1, h2⟩ := reachable_master_eq_fold h
  refine ⟨fun id => ?_, fun id => ?_, fun id => h1 id, fun pid => h2 pid⟩
  · show ((m.indices.foldl (fun acc i => acc.merge i) Index.new).chunks id).isSome =
      (m.masterIndex.chunks id).isSome
    rw [h1 id]
  · exact h1 id

/-- A concrete chunk entry, index and manager for the C10 witness. -/
def idxExChunk : ChunkMetadata := ⟨List.replicate 32 4, "pack-00000000", 0, 3, 3⟩

def idxEx : Index := Index.new.addChunk idxExChunk

def mgrEx : IndexManager := IndexManager.new.addIndex idxEx

theorem c10_compact_preserves_lookups_witness :
    Reachable mgrEx ∧
    (mgrEx.compact).2.hasChunk (List.replicate 32 4) = mgrEx.hasChunk (List.replicate 32 4) ∧
    (mgrEx.compact).2.getChunk (List.replicate 32 4) = mgrEx.getChunk (List.replicate 32 4) ∧
    mgrEx.hasChunk (List.replicate 32 4) = true := by
  have h : Reachable mgrEx := Reachable.add IndexManager.new idxEx Reachable.new
  have hc := c10_compact_preserves_lookups mgrEx h
  exact ⟨h, hc.1 _, hc.2.1 _, rfl⟩

/-! ## Repository open and key files (src/core/src/repository.rs lines 163-213)

The Argon2id password derivation (argon2 crate) is opaque to the property
considered and is modelled as an explicit kdf parameter. A key directory
entry whose contents fail to parse as a KeyFile is modelled as none. -/

/-- types.rs KdfParams. -/
structure KdfParams where
  algorithm : String
  iterations : Nat
  memory : Nat
  parallelism : Nat
  salt : List Nat
deriving DecidableEq

/-- repository.rs KeyFile. -/
structure KeyFile where
  encryptedKey : List Nat
  kdfParams : KdfParams
deriving DecidableEq

/-- The enumeration loop of Repository::open: it stops at the FIRST entry that
parses as a KeyFile. -/
def firstParseable : List (Option KeyFile) → Option KeyFile
  | [] => none
  | some kf :: _ => some kf
  | none :: rest => firstParseable rest

/-- Repository::open, key selection and unsealing (repository.rs lines
181-205): take the first parseable key file, derive the KEK from the password
with that file kdf_params, attempt to unseal encrypted_data_key; a decryption
failure is mapped to InvalidPassword; the unsealed data key must be 32 bytes
to construct the session Encryptor. -/
def openKeys (kdf : String → KdfParams → List Nat) (password : String)
    (files : List (Option KeyFile)) : Except Error (List Nat) :=
  match firstParseable files with
  | none => .error .InvalidPassword
  | some kf =>
      let masterKey := kdf password kf.kdfParams
      if masterKey.length = 32 then
        match encryptorDecrypt masterKey kf.encryptedKey with
        | .ok dataKey =>
            if dataKey.length = 32 then .ok dataKey
            else .error (.Encryption "Key must be 32 bytes")
        | .error _ => .error .InvalidPassword
      else .error (.Encryption "Key must be 32 bytes")

/-- A concrete KEK, a concrete KDF stand-in, data key, and two key files: the
first does not unseal (its sealed bytes are garbage), the second unseals to
the data key. -/
def c7kek : List Nat := List.replicate 32 17

def c7kdf : String → KdfParams → List Nat := fun _ _ => c7kek

def c7dk : List Nat := (List.range 32).map (fun i => 32 + i)

def c7params : KdfParams := ⟨"argon2id", 1, 65536, 4, List.replicate 32 9⟩

def c7kf1 : KeyFile := ⟨List.replicate 28 0, c7params⟩

def c7kf2 : KeyFile := ⟨encryptorEncrypt c7kek (List.replicate 12 5) c7dk, c7params⟩

/-- C7 counterexample: with two key files of which only the second unseals
under the supplied password, open fails with InvalidPassword even though a
key file that unseals exists: the source breaks out of the enumeration after
the first parseable key file and never tries the others. -/
theorem c7_open_ignores_later_keyfiles_cex :
    encryptorDecrypt (c7kdf "pw" c7kf2.kdfParams) c7kf2.encryptedKey = .ok c7dk ∧
    openKeys c7kdf "pw" [some c7kf1, some c7kf2] = .error .InvalidPassword := by
  refine ⟨by decide, by decide⟩

theorem firstParseable_append (pre : List (Option KeyFile)) (kf : KeyFile)
    (rest : List (Option KeyFile)) (hpre : ∀ x ∈ pre, x = none) :
    firstParseable (pre ++ some kf :: rest) = some kf := by
  induction pre with
  | nil => rfl
  | cons a pre ih =>
      have ha : a = none := hpre a (List.mem_cons_self a pre)
      subst ha
      exact ih (fun x hx => hpre x (List.mem_cons_of_mem none hx))

/-- C7 amended: open consults only the first key file that parses: whatever
key files follow it (parseable or not, unsealable or not), the result of open
is the result of opening against that single file alone; in particular open
fails with InvalidPassword whenever the first parseable key file does not
unseal, even when a later one would. -/
theorem c7_open_first_parseable_only (kdf : String → KdfParams → List Nat)
    (password : String) (pre : List (Option KeyFile)) (kf : KeyFile)
    (rest : List (Option KeyFile)) (hpre : ∀ x ∈ pre, x = none) :
    openKeys kdf password (pre ++ some kf :: rest) = openKeys kdf password [some kf] := by
  unfold openKeys
  rw [firstParseable_append pre kf rest hpre]
  rfl

theorem c7_open_first_parseable_only_witness :
    (∀ x ∈ ([none] : List (Option KeyFile)), x = none) ∧
    openKeys c7kdf "pw" ([none] ++ some c7kf1 :: [some c7kf2]) =
      openKeys c7kdf "pw" [some c7kf1] :=
  ⟨by decide,
    c7_open_first_parseable_only c7kdf "pw" [none] c7kf1 [some c7kf2] (by decide)⟩

/-! ## Retry driver (src/backends/src/retry.rs)

The wrapped async operation is modelled as a function from the attempt number
(0-based) to its outcome; the backoff sleep affects timing only, never the
result, and is not modelled. -/

/-- Bool test that pat starts the list. -/
def startsWithL : List Char → List Char → Bool
  | [], _ => true
  | _ :: _, [] => false
  | p :: ps, h :: hs => p == h && startsWithL ps hs

/-- Bool substring containment (str::contains with a string pattern). -/
def hasSubL (pat : List Char) : List Char → Bool
  | [] => pat.isEmpty
  | h :: hs => startsWithL pat (h :: hs) || hasSubL pat hs

/-- Rust str::contains for string patterns. -/
def strContains (hay pat : String) : Bool := hasSubL pat.toList hay.toList

/-- The Retryable classifier for ghostsnap_core::Error (retry.rs lines
78-104). -/
def Error.isRetryable : Error → Bool
  | .IoError _ => true
  | .Backend msg =>
      strContains msg "timeout" || strContains msg "rate limit"
      || strContains msg "throttle" || strContains msg "temporarily unavailable"
      || strContains msg "try again" || strContains msg "503" || strContains msg "429"
  | .InvalidPassword => false
  | .RepositoryNotFound _ => false
  | .RepositoryExists _ => false
  | .InvalidFormatVersion _ => false
  | .CorruptedPack _ => false
  | _ => false

/-- The retry loop of retry_with_backoff. The first argument is the number of
attempts still allowed (initially max_attempts, so an iteration runs exactly
when attempt < max_attempts), the second the 0-based attempt number. Returns
the result (none models the panic of last_error.expect when max_attempts = 0)
paired with the number of invocations of the operation performed. -/
def retryFrom {α : Type} (op : Nat → Except Error α) :
    Nat → Nat → Option Error → Option (Except Error α) × Nat
  | 0, _, some e => (some (.error e), 0)
  | 0, _, none => (none, 0)
  | remaining + 1, attempt, _ =>
      match op attempt with
      | .ok v => (some (.ok v), 1)
      | .error e =>
          if e.isRetryable then
            let r := retryFrom op remaining (attempt + 1) (some e)
            (r.1, r.2 + 1)
          else (some (.error e), 1)

/-- retry.rs retry_with_backoff. -/
def retryWithBackoff {α : Type} (op : Nat → Except Error α) (maxAttempts : Nat) :
    Option (Except Error α) × Nat :=
  retryFrom op maxAttempts 0 none

theorem retryFrom_count_le {α : Type} (op : Nat → Except Error α) :
    ∀ remaining att last, (retryFrom op remaining att last).2 ≤ remaining := by
  intro remaining
  induction remaining with
  | zero => intro att last; cases last <;> simp [retryFrom]
  | succ n ih =>
      intro att last
      rw [retryFrom]
      cases hop : op att with
      | ok v => simp
      | error e =>
          by_cases hr : e.isRetryable
          · have := ih (att + 1) (some e)
            simp [hr]
            omega
          · simp [hr]

theorem retryFrom_count_pos {α : Type} (op : Nat → Except Error α)
    (remaining att : Nat) (last : Option Error) :
    1 ≤ (retryFrom op (remaining + 1) att last).2 := by
  rw [retryFrom]
  cases hop : op att with
  | ok v => simp
  | error e =>
      by_cases hr : e.isRetryable
      · simp [hr]
      · simp [hr]

/-- C9: the retry driver invokes the operation at most max_attempts times; a
non-retryable first-attempt error (InvalidPassword, RepositoryNotFound,
RepositoryExists, InvalidFormatVersion, CorruptedPack, and the not-found
errors SnapshotNotFound and ChunkNotFound all classify as non-retryable) is
returned after exactly one invocation; IO errors always classify retryable
and Backend errors containing timeout, rate limit, throttle, 429 or 503
classify retryable, and a retryable first-attempt failure leads to at least a
second invocation when max_attempts allows it. -/
theorem c9_retry_classification {α : Type} (op : Nat → Except Error α) (maxA : Nat) :
    (retryWithBackoff op maxA).2 ≤ maxA ∧
    (∀ e, 0 < maxA → op 0 = .error e → e.isRetryable = false →
      retryWithBackoff op maxA = (some (.error e), 1)) ∧
    (∀ m, (Error.IoError m).isRetryable = true) ∧
    Error.InvalidPassword.isRetryable = false ∧
    (∀ s, (Error.RepositoryNotFound s).isRetryable = false) ∧
    (∀ s, (Error.RepositoryExists s).isRetryable = false) ∧
    (∀ v, (Error.InvalidFormatVersion v).isRetryable = false) ∧
    (∀ s, (Error.CorruptedPack s).isRetryable = false) ∧
    (∀ s, (Error.SnapshotNotFound s).isRetryable = false) ∧
    (∀ s, (Error.ChunkNotFound s).isRetryable = false) ∧
    (∀ m, (strContains m "timeout" || strContains m "rate limit"
        || strContains m "throttle" || strContains m "429"
        || strContains m "503") = true → (Error.Backend m).isRetryable = true) ∧
    (∀ e, 2 ≤ maxA → op 0 = .error e → e.isRetryable = true →
      2 ≤ (retryWithBackoff op maxA).2) := by
  refine ⟨?_, ?_, fun m => rfl, rfl, fun s => rfl, fun s => rfl, fun v => rfl,
    fun s => rfl, fun s => rfl, fun s => rfl, ?_, ?_⟩
  · exact retryFrom_count_le op maxA 0 none
  · intro e hpos hop hnr
    unfold retryWithBackoff
    obtain ⟨n, rfl⟩ : ∃ n, maxA = n + 1 := ⟨maxA - 1, by omega⟩
    rw [retryFrom, hop]
    simp [hnr]
  · intro m hm
    simp only [Error.isRetryable]
    simp only [Bool.or_eq_true] at hm ⊢
    tauto
  · intro e h2 hop hr
    unfold retryWithBackoff
    obtain ⟨n, rfl⟩ : ∃ n, maxA = n + 2 := ⟨maxA - 2, by omega⟩
    rw [retryFrom, hop]
    simp only [hr, if_true]
    have hpos := retryFrom_count_pos op n 1 (some e)
    simp
    omega

theorem c9_retry_classification_witness :
    retryWithBackoff (fun _ => (.error .InvalidPassword : Except Error Unit)) 5 =
      (some (.error .InvalidPassword), 1) ∧
    (retryWithBackoff (fun _ => (.error (.IoError "reset") : Except Error Unit)) 5).2 ≤ 5 ∧
    2 ≤ (retryWithBackoff (fun _ => (.error (.IoError "reset") : Except Error Unit)) 5).2 ∧
    (Error.Backend "throttle").isRetryable = true := by
  refine ⟨?_, ?_, ?_, ?_⟩
  · exact (c9_retry_classification (fun _ => (.error .InvalidPassword : Except Error Unit)) 5).2.1
      .InvalidPassword (by omega) rfl rfl
  · exact (c9_retry_classification (fun _ => (.error (.IoError "reset") : Except Error Unit)) 5).1
  · exact (c9_retry_classification (fun _ => (.error (.IoError "reset") : Except Error Unit)) 5).2.2.2.2.2.2.2.2.2.2.2
      (.IoError "reset") (by omega) rfl rfl
  · exact (c9_retry_classification (fun _ => (.error .InvalidPassword : Except Error Unit)) 5).2.2.2.2.2.2.2.2.2.2.1
      "throttle" (by decide)

/-! ## Chunker (src/core/src/chunker.rs)

chunker.rs builds a fastcdc v2020 splitter over the input and copies every
emitted (offset, length) range into an owning Chunk. The fastcdc crate is a
dependency whose source is not part of this repository; its boundary choice
is modelled from the spec below. -/

/-- chunker.rs Chunker configuration fields. -/
structure ChunkerCfg where
  minSize : Nat
  avgSize : Nat
  maxSize : Nat
deriving DecidableEq

/-- Chunker::new from chunker.rs: min = avg/4, max = avg*4. -/
def Chunker.new (avg : Nat) : ChunkerCfg := ⟨avg / 4, avg, avg * 4⟩

/-- chunker.rs Chunk. -/
structure Chunk where
  offset : Nat
  length : Nat
  data : List Nat
deriving DecidableEq

/-- Scan of the rolling gear hash over the window of candidate cut positions;
returns the index of the first position whose hash matches the mask in force
(the stricter mask before the normal point, the laxer one after). -/
def cutScan (gear : Nat → Nat) (maskS maskL minSize center : Nat)
    (window : List Nat) : Option Nat :=
  let hs := (window.scanl (fun h b => ((h >>> 1) + gear b) % 2 ^ 64) 0).drop 1
  ((hs.zip (List.range hs.length)).find?
      (fun e => (e.1 &&& (if minSize + e.2 < center then maskS else maskL)) == 0)).map
    (fun e => e.2)

/-- Modelled from the spec: the fastcdc v2020 cut-point selection lives in the
fastcdc crate, not under src/. Spec section 4.3 characterizes the chunker as
a deterministic, purely content-defined splitter whose chunk lengths lie
between minSize and maxSize around the normal point avgSize, the final chunk
alone being allowed to run short. Following the FastCDC scheme, when more
than minSize bytes remain, a rolling hash of the bytes past the first minSize
is tested against a stricter mask up to the normal point and a laxer mask
beyond it; the chunk ends at the first match or else at min(remaining,
maxSize); when at most minSize bytes remain they form the final chunk. The
gear table and the two masks are parameters of the model. -/
def cutLen (gear : Nat → Nat) (maskS maskL : Nat) (cfg : ChunkerCfg)
    (data : List Nat) (pos : Nat) : Nat :=
  let remaining := data.length - pos
  if remaining ≤ cfg.minSize then remaining
  else
    let bound := min remaining cfg.maxSize
    let center := min bound cfg.avgSize
    match cutScan gear maskS maskL cfg.minSize center
        ((data.drop (pos + cfg.minSize)).take (bound - cfg.minSize)) with
    | some k => cfg.minSize + k + 1
    | none => bound

theorem cutScan_lt (gear : Nat → Nat) (maskS maskL minSize center : Nat)
    (window : List Nat) (k : Nat)
    (h : cutScan gear maskS maskL minSize center window = some k) :
    k < window.length := by
  unfold cutScan at h
  rw [Option.map_eq_some'] at h
  obtain ⟨e, he, hk⟩ := h
  have hmem := List.mem_of_find?_eq_some he
  have h2 := (List.of_mem_zip hmem).2
  rw [List.mem_range] at h2
  have hlen : ((window.scanl (fun h b => ((h >>> 1) + gear b) % 2 ^ 64) 0).drop 1).length =
      window.length := by
    simp [List.length_scanl]
  omega

theorem cutLen_spec (gear : Nat → Nat) (maskS maskL : Nat) (cfg : ChunkerCfg)
    (data : List Nat) (pos : Nat)
    (hmin : 0 < cfg.minSize) (hmm : cfg.minSize < cfg.maxSize)
    (hpos : pos < data.length) :
    1 ≤ cutLen gear maskS maskL cfg data pos ∧
    cutLen gear maskS maskL cfg data pos ≤ data.length - pos ∧
    cutLen gear maskS maskL cfg data pos ≤ cfg.maxSize ∧
    (data.length - pos ≤ cfg.minSize →
      cutLen gear maskS maskL cfg data pos = data.length - pos) ∧
    (cfg.minSize < data.length - pos →
      cfg.minSize < cutLen gear maskS maskL cfg data pos) := by
  simp only [cutLen]
  split
  · refine ⟨by omega, le_rfl, by omega, fun _ => rfl, by omega⟩
  · split
    · rename_i hrem k hk
      have hwin := cutScan_lt _ _ _ _ _ _ _ hk
      simp only [List.length_take, List.length_drop] at hwin
      refine ⟨by omega, by omega, by omega, by omega, by omega⟩
    · rename_i hrem hk
      refine ⟨by omega, by omega, by omega, by omega, by omega⟩

/-- The fastcdc iteration: emit consecutive chunks until the input is
exhausted, each carrying an owning copy of its byte range (chunker.rs
chunk_data maps each emitted range to a Chunk with data[offset..offset+len]).
The two hypotheses mirror the size validation the fastcdc constructor
enforces with assertions. -/
def chunkGo (gear : Nat → Nat) (maskS maskL : Nat) (cfg : ChunkerCfg)
    (hmin : 0 < cfg.minSize) (hmm : cfg.minSize < cfg.maxSize)
    (data : List Nat) (pos : Nat) : List Chunk :=
  if h : pos < data.length then
    let n := cutLen gear maskS maskL cfg data pos
    ⟨pos, n, (data.drop pos).take n⟩ ::
      chunkGo gear maskS maskL cfg hmin hmm data (pos + n)
  else []
termination_by data.length - pos
decreasing_by
  have hs := cutLen_spec gear maskS maskL cfg data pos hmin hmm h
  omega

/-- Chunker::chunk_data from chunker.rs. -/
def chunkData (gear : Nat → Nat) (maskS maskL : Nat) (cfg : ChunkerCfg)
    (hmin : 0 < cfg.minSize) (hmm : cfg.minSize < cfg.maxSize)
    (data : List Nat) : List Chunk :=
  chunkGo gear maskS maskL cfg hmin hmm data 0

theorem chunkGo_spec (gear : Nat → Nat) (maskS maskL : Nat) (cfg : ChunkerCfg)
    (hmin : 0 < cfg.minSize) (hmm : cfg.minSize < cfg.maxSize) (data : List Nat) :
    ∀ pos,
      ((chunkGo gear maskS maskL cfg hmin hmm data pos).map Chunk.data).flatten =
        data.drop pos ∧
      (∀ c ∈ chunkGo gear maskS maskL cfg hmin hmm data pos,
        c.data = (data.drop c.offset).take c.length ∧
        c.data.length = c.length ∧
        c.length ≤ cfg.maxSize ∧
        (c.offset + c.length ≠ data.length → cfg.minSize ≤ c.length)) := by
  suffices hS : ∀ fuel pos, data.length - pos ≤ fuel →
      ((chunkGo gear maskS maskL cfg hmin hmm data pos).map Chunk.data).flatten =
        data.drop pos ∧
      (∀ c ∈ chunkGo gear maskS maskL cfg hmin hmm data pos,
        c.data = (data.drop c.offset).take c.length ∧
        c.data.length = c.length ∧
        c.length ≤ cfg.maxSize ∧
        (c.offset + c.length ≠ data.length → cfg.minSize ≤ c.length)) by
    exact fun pos => hS (data.length - pos) pos le_rfl
  intro fuel
  induction fuel with
  | zero =>
      intro pos hf
      have hge : ¬ pos < data.length := by omega
      rw [chunkGo, dif_neg hge]
      refine ⟨?_, fun c hc => absurd hc (List.not_mem_nil c)⟩
      rw [List.drop_eq_nil_of_le (by omega)]
      rfl
  | succ n ih =>
      intro pos hf
      by_cases h : pos < data.length
      · rw [chunkGo, dif_pos h]
        obtain ⟨hc1, hc2, hc3, hc4, hc5⟩ :=
          cutLen_spec gear maskS maskL cfg data pos hmin hmm h
        obtain ⟨ih1, ih2⟩ :=
          ih (pos + cutLen gear maskS maskL cfg data pos) (by omega)
        constructor
        · simp only [List.map_cons, List.flatten_cons]
          rw [ih1]
          have hdd : data.drop (pos + cutLen gear maskS maskL cfg data pos) =
              (data.drop pos).drop (cutLen gear maskS maskL cfg data pos) := by
            rw [List.drop_drop]
          rw [hdd]
          exact List.take_append_drop _ _
        · intro c hc
          rcases List.mem_cons.mp hc with rfl | hc'
          · dsimp only
            refine ⟨rfl, ?_, hc3, ?_⟩
            · simp only [List.length_take, List.length_drop]
              omega
            · intro hne
              by_cases hsmall : data.length - pos ≤ cfg.minSize
              · exact absurd (by have := hc4 hsmall; omega) hne
              · have := hc5 (by omega)
                omega
          · exact ih2 c hc'
      · rw [chunkGo, dif_neg h]
        refine ⟨?_, fun c hc => absurd hc (List.not_mem_nil c)⟩
        rw [List.drop_eq_nil_of_le (by omega)]
        rfl

/-- C6: chunk_data is a pure function of the input bytes (equal inputs give
equal chunk lists); the concatenation of the chunk bytes is the input; every
chunk carries exactly the input slice at its recorded offset and length; no
chunk exceeds max_size; and every chunk that does not end the input is at
least min_size long (only the final chunk may run short). Spec-modelled: the
fastcdc boundary choice is a parameter-generic model per section 4.3. -/
theorem c6_chunker_props (gear : Nat → Nat) (maskS maskL : Nat) (cfg : ChunkerCfg)
    (data data' : List Nat)
    (hmin : 0 < cfg.minSize) (hmm : cfg.minSize < cfg.maxSize) (hdet : data = data') :
    chunkData gear maskS maskL cfg hmin hmm data =
      chunkData gear maskS maskL cfg hmin hmm data' ∧
    ((chunkData gear maskS maskL cfg hmin hmm data).map Chunk.data).flatten = data ∧
    (∀ c ∈ chunkData gear maskS maskL cfg hmin hmm data,
      c.data = (data.drop c.offset).take c.length ∧ c.data.length = c.length) ∧
    (∀ c ∈ chunkData gear maskS maskL cfg hmin hmm data, c.length ≤ cfg.maxSize) ∧
    (∀ c ∈ chunkData gear maskS maskL cfg hmin hmm data,
      c.offset + c.length ≠ data.length → cfg.minSize ≤ c.length) := by
  obtain ⟨h1, h2⟩ := chunkGo_spec gear maskS maskL cfg hmin hmm data 0
  subst hdet
  refine ⟨rfl, ?_, ?_, ?_, ?_⟩
  · simpa using h1
  · exact fun c hc => ⟨(h2 c hc).1, (h2 c hc).2.1⟩
  · exact fun c hc => (h2 c hc).2.2.1
  · exact fun c hc => (h2 c hc).2.2.2

theorem c6_chunker_props_witness :
    0 < (Chunker.new 4).minSize ∧
    (Chunker.new 4).minSize < (Chunker.new 4).maxSize ∧
    ([5, 6, 7] : List Nat) = [5, 6, 7] ∧
    ((chunkData (fun b => b) 1 1 (Chunker.new 4) (by decide) (by decide)
        [5, 6, 7]).map Chunk.data).flatten = [5, 6, 7] :=
  ⟨by decide, by decide, rfl,
    (c6_chunker_props (fun b => b) 1 1 (Chunker.new 4) [5, 6, 7] [5, 6, 7]
      (by decide) (by decide) rfl).2.1⟩

end Ghostsnap
